import Mathlib

/-!
Verification of the batch download orchestration core of the
`ytdownloader` repository, as a shallow embedding in Lean 4.

Embedding conventions:
* Python strings are Lean `String`s; most reasoning happens on `String.data`
  (`List Char`).
* Python functions that can raise are embedded with an explicit result sum
  (`Option` / `Except`); a Python function with no `raise` and no failing
  primitive is embedded as a total function.
* The filesystem is a snapshot: a list of existing path strings;
  `os.path.exists p` becomes `p ∈ fs`.
* External collaborators (the `yt_dlp` engine) are oracles passed in as
  explicit parameters.
-/

namespace Ytdl

/-! ## Data model (`models/video_info.py`) -/

/-- `VideoInfo` from `models/video_info.py`.  The optional upload date is
modelled as an epoch number. -/
structure VideoInfo where
  url : String
  title : String
  playlist_title : Option String := none
  duration : Option Nat := none
  upload_date : Option Nat := none
  view_count : Option Nat := none
  thumbnail_url : Option String := none
deriving DecidableEq, Repr

/-! ## Filename sanitizer (`utils/file_helpers.py`, `sanitize_filename`) -/

/-- Python's regex `\s` class, restricted to ASCII (the input of the
whitespace-collapsing substitution is ASCII-only by construction). -/
def isPySpace (c : Char) : Bool :=
  c == ' ' || c == '\t' || c == '\n' || c == '\r' || c == '\x0b' || c == '\x0c'

/-- Python's regex `\w` on an ASCII string: `[A-Za-z0-9_]`. -/
def isWordChar (c : Char) : Bool :=
  c.isAlpha || c.isDigit || c == '_'

/-- The characters kept by the substitution `re.sub(r'[^\w\-_\. ]', '_', s)`:
word characters, hyphen, underscore (already a word character), period,
space. -/
def isAllowedChar (c : Char) : Bool :=
  isWordChar c || c == '-' || c == '.' || c == ' '

/-- Characters stripped from both ends by `str.strip('. ')`. -/
def isStripChar (c : Char) : Bool :=
  c == '.' || c == ' '

/-- Model of `unicodedata.normalize('NFKD', s).encode('ascii','ignore')
.decode('ascii')`: the result is the ASCII part of the decomposition.  On
ASCII input this is the identity; every property proved below depends only
on the output being ASCII, not on the Unicode decomposition table, so the
table itself is not modelled. -/
def toAsciiChars (l : List Char) : List Char :=
  l.filter (fun c => c.toNat ≤ 127)

/-- `re.sub(r'[^\w\-_\. ]', '_', s)`: a single-character class substitution
replaces every disallowed character, one `'_'` per character. -/
def replaceBadChars (l : List Char) : List Char :=
  l.map (fun c => if isAllowedChar c then c else '_')

/-- Worker for `re.sub(r'\s+', ' ', s)`: each maximal whitespace run becomes
one space.  The flag records whether the previous character was whitespace. -/
def collapseWsGo : Bool → List Char → List Char
  | _, [] => []
  | prevWs, c :: rest =>
    if isPySpace c then
      if prevWs then collapseWsGo true rest
      else ' ' :: collapseWsGo true rest
    else c :: collapseWsGo false rest

/-- `re.sub(r'\s+', ' ', s)`. -/
def collapseWs (l : List Char) : List Char :=
  collapseWsGo false l

/-- `str.strip('. ')`: drop the stripped characters from the front, then
from the back. -/
def stripDotSpace (l : List Char) : List Char :=
  (((l.dropWhile isStripChar).reverse.dropWhile isStripChar)).reverse

/-- `FileHelper.sanitize_filename` from `utils/file_helpers.py`:
normalize/ASCII-fold, replace disallowed characters by `'_'`, collapse
whitespace runs, strip `'. '` from both ends, truncate to `max_length`,
and fall back to the literal `"unnamed_file"` when the result is empty. -/
def sanitize_filename (filename : String) (max_length : Nat) : String :=
  let step := stripDotSpace (collapseWs (replaceBadChars (toAsciiChars filename.data)))
  let trimmed := step.take max_length
  if trimmed.isEmpty then "unnamed_file" else String.mk trimmed

/-! ## Unique path resolver (`utils/file_helpers.py`, `generate_unique_filename`) -/

/-- Model of `os.path.join` for a directory and a file name. -/
def os_path_join (a b : String) : String :=
  a ++ "/" ++ b

/-- The sequence of paths probed by `generate_unique_filename`:
`base/clean.ext`, then `base/clean_1.ext`, `base/clean_2.ext`, …
(`f"{clean_filename}{extension}"` and `f"{clean_filename}_{counter}{extension}"`). -/
def candidatePath (base clean ext : String) (k : Nat) : String :=
  if k = 0 then os_path_join base (clean ++ ext)
  else os_path_join base (clean ++ "_" ++ Nat.repr k ++ ext)

/-- The `while os.path.exists(filepath)` loop of `generate_unique_filename`,
probing `candidatePath … k`, `k+1`, … against the snapshot `fs`.  The Python
loop is unbounded; here it carries fuel, and `generate_unique_filename`
supplies fuel `fs.length + 1`, which is proved sufficient below (the
candidates are pairwise distinct, so at most `fs.length` probes can hit). -/
def uniqueLoop (fs : List String) (base clean ext : String) : Nat → Nat → String
  | 0, k => candidatePath base clean ext k
  | fuel + 1, k =>
    if candidatePath base clean ext k ∈ fs then
      uniqueLoop fs base clean ext fuel (k + 1)
    else candidatePath base clean ext k

/-- `FileHelper.generate_unique_filename` from `utils/file_helpers.py`:
sanitizes the file name, then returns the first candidate path that does not
exist in the directory snapshot `fs`. -/
def generate_unique_filename (fs : List String) (base_path filename extension : String) :
    String :=
  let clean := sanitize_filename filename 255
  uniqueLoop fs base_path clean extension (fs.length + 1) 0

/-! ## Result summary builder (`ui/progress_tracking.py`, `create_download_summary`) -/

/-- The summary dictionary built by `create_download_summary`.  The Python
float rate is modelled as a rational. -/
structure Summary where
  total_videos : Nat
  successful_count : Nat
  failed_count : Nat
  success_rate : ℚ
  successful_videos : List String
  failed_videos : List String
deriving DecidableEq, Repr

/-- `DownloadProgressTracker.create_download_summary` from
`ui/progress_tracking.py`.  The Python body divides by
`len(successful_videos) + len(failed_videos)` with no guard; when both lists
are empty this raises `ZeroDivisionError`, modelled as `none`. -/
def create_download_summary (successful_videos failed_videos : List VideoInfo) :
    Option Summary :=
  if successful_videos.length + failed_videos.length = 0 then none
  else
    some
      ⟨successful_videos.length + failed_videos.length,
       successful_videos.length,
       failed_videos.length,
       (successful_videos.length : ℚ) /
         ((successful_videos.length : ℚ) + (failed_videos.length : ℚ)) * 100,
       successful_videos.map VideoInfo.title,
       failed_videos.map VideoInfo.title⟩

/-! ## Item naming strategy (`app.py`, `_generate_custom_titles`) -/

/-- `custom_prefix or "audio"`: Python `or` falls through on `None` and on
the empty string. -/
def pfxOrDefault (customPfx : Option String) : String :=
  match customPfx with
  | none => "audio"
  | some s => if s = "" then "audio" else s

/-- `YouTubeAudioDownloaderApp._generate_custom_titles` from `app.py`.
The Python function is a chain of `if` blocks with `return`s and no
`raise`; when no branch matches it falls off the end and returns `None`,
modelled as `none`. -/
def generate_custom_titles (videos : List VideoInfo) (naming_method : String)
    (customPfx : Option String) : Option (List String) :=
  if naming_method = "Original Video Titles" then
    some (videos.map VideoInfo.title)
  else if naming_method = "Custom Prefix" then
    some ((List.range videos.length).map
      (fun i => pfxOrDefault customPfx ++ "_" ++ Nat.repr (i + 1)))
  else if naming_method = "Numbered Sequence" then
    some ((List.range videos.length).map (fun i => "track_" ++ Nat.repr (i + 1)))
  else none

/-! ## Single-item downloader (`services/audio_downloader.py`, `download_audio`) -/

/-- `custom_title or video.title`: Python `or` falls through on `None` and
on the empty string. -/
def titleOrDefault (custom_title : Option String) (videoTitle : String) : String :=
  match custom_title with
  | none => videoTitle
  | some s => if s = "" then videoTitle else s

/-- `AudioDownloader.download_audio` from `services/audio_downloader.py`
(with `playlist_folder` already folded into `output_dir`; directory creation
swallows its own errors and its result is not inspected by the source).
The external engine invocation `ydl.download` is the oracle `transcode`
(`Except.error msg` models a raised exception, caught by the enclosing
`try`/`except`); `existsAfter` is the disk state probed by the
`os.path.exists` verification after the invocation.  The source returns the
resolved path when that check passes and `None` on every other path,
logging — but not returning — the failure reason. -/
def download_audio (fs : List String) (output_dir : String) (video : VideoInfo)
    (custom_title : Option String) (codec : String)
    (transcode : Except String Unit) (existsAfter : String → Bool) : Option String :=
  let filename := titleOrDefault custom_title video.title
  let sanitized := sanitize_filename filename 255
  let filepath := generate_unique_filename fs output_dir sanitized ("." ++ codec)
  match transcode with
  | Except.error _ => none
  | Except.ok _ => if existsAfter filepath then some filepath else none

/-! ## Batch loops (`services/audio_downloader.py`, `batch_download` and
`app.py`, `_perform_download`) -/

/-- The `for video, title in zip(videos, custom_titles)` loop of
`AudioDownloader.batch_download`: `dl` is the per-item result of
`download_audio` (which never raises); a path is appended only when
`if filepath:` is truthy (non-`None` and non-empty). -/
def batch_loop (dl : VideoInfo → String → Option String) :
    List (VideoInfo × String) → List String
  | [] => []
  | p :: rest =>
    match dl p.1 p.2 with
    | some fp => if fp = "" then batch_loop dl rest else fp :: batch_loop dl rest
    | none => batch_loop dl rest

/-- `AudioDownloader.batch_download` from `services/audio_downloader.py`:
`if not custom_titles:` substitutes the video titles when the argument is
`None` or the empty list; the titles are then truncated to the video count
(`custom_titles[:len(videos)]`) and `zip` pairs them (truncating further if
the titles are fewer).  Returns the successfully downloaded paths only. -/
def batch_download (videos : List VideoInfo) (custom_titles : Option (List String))
    (dl : VideoInfo → String → Option String) : List String :=
  let titles :=
    match custom_titles with
    | none => videos.map VideoInfo.title
    | some ts => if ts = [] then videos.map VideoInfo.title else ts
  batch_loop dl (videos.zip (titles.take videos.length))

/-- Truthiness of one per-item attempt in `_perform_download`:
`download_result` is truthy exactly when the call returned (no exception)
with a non-`None`, non-empty path. -/
def dl_success (dl : VideoInfo → String → Except String (Option String))
    (p : VideoInfo × String) : Bool :=
  match dl p.1 p.2 with
  | Except.ok (some fp) => fp != ""
  | _ => false

/-- The `for video, title in zip(videos, custom_titles)` loop of
`YouTubeAudioDownloaderApp._perform_download` from `app.py`: each item is
attempted inside `try`/`except`; a truthy result appends the video to
`successful_videos`, any other result or a raised exception appends it to
`failed_videos`, and the loop continues either way. -/
def perform_loop (dl : VideoInfo → String → Except String (Option String)) :
    List (VideoInfo × String) → List VideoInfo × List VideoInfo
  | [] => ([], [])
  | p :: rest =>
    let acc := perform_loop dl rest
    if dl_success dl p then (p.1 :: acc.1, acc.2) else (acc.1, p.1 :: acc.2)

/-- `_perform_download`'s accumulation of per-item outcomes over
`zip(videos, custom_titles)`: returns `(successful_videos, failed_videos)`. -/
def perform_download (videos : List VideoInfo) (custom_titles : List String)
    (dl : VideoInfo → String → Except String (Option String)) :
    List VideoInfo × List VideoInfo :=
  perform_loop dl (videos.zip custom_titles)

/-! ## Sample data used by concrete witnesses and counterexamples -/

/-- A concrete video used in closed theorems. -/
def sampleVideo1 : VideoInfo :=
  ⟨"https://youtu.be/a1", "First Song", none, none, none, none, none⟩

/-- A second concrete video. -/
def sampleVideo2 : VideoInfo :=
  ⟨"https://youtu.be/a2", "Second Song", none, none, none, none, none⟩

/-- A third concrete video. -/
def sampleVideo3 : VideoInfo :=
  ⟨"https://youtu.be/a3", "Third Song", none, none, none, none, none⟩

/-! ## C1 -/

/-- C1: the claim requires `summarize([], [])` to report `success_rate = 0`
and `total = 0` with no arithmetic fault.  The source divides by
`len(successful_videos) + len(failed_videos)` with no zero guard, so on two
empty lists it raises `ZeroDivisionError` (modelled as `none`) instead of
returning any summary. -/
theorem create_download_summary_empty_fault :
    create_download_summary [] [] = none := rfl

/-! ## C3 -/

/-- C3 counterexample: on an unrecognized strategy selector the naming
function does not fail with an InvalidArgument-style error — its body has no
`raise` at all — and instead falls off the end, returning Python `None`
(modelled as `none`), a normal non-error return value. -/
theorem generate_custom_titles_unrecognized_counterexample :
    generate_custom_titles [sampleVideo1] "Alphabetical" none = none := rfl

/-- C3 (amended): for every item list and every strategy selector that is
not one of the three recognized values, the naming function returns Python
`None` (no name list); it never raises and never silently defaults to some
name list. -/
theorem generate_custom_titles_unrecognized :
    ∀ (videos : List VideoInfo) (customPfx : Option String) (m : String),
      m ≠ "Original Video Titles" → m ≠ "Custom Prefix" → m ≠ "Numbered Sequence" →
      generate_custom_titles videos m customPfx = none := by
  intro videos customPfx m h1 h2 h3
  simp [generate_custom_titles, h1, h2, h3]

/-- C3 witness: the amended theorem applied at a concrete unrecognized
selector. -/
theorem generate_custom_titles_unrecognized_witness :
    generate_custom_titles [sampleVideo1] "Shuffle" (some "mix") = none :=
  generate_custom_titles_unrecognized [sampleVideo1] (some "mix") "Shuffle"
    (by decide) (by decide) (by decide)

/-! ## C9 -/

/-- C9: for every item list (and optional prefix argument), the naming
function returns, for each recognized strategy, a list of the same length
and order as the input whose entries are: the item titles verbatim
(`Original Video Titles`); `{prefix-or-"audio"}_{1-based index}`
(`Custom Prefix`, with `"audio"` exactly when the prefix is absent or
empty); `track_{1-based index}` (`Numbered Sequence`). -/
theorem generate_custom_titles_spec :
    ∀ (videos : List VideoInfo) (customPfx : Option String),
      generate_custom_titles videos "Original Video Titles" customPfx =
          some (videos.map VideoInfo.title) ∧
      (∃ L, generate_custom_titles videos "Custom Prefix" customPfx = some L ∧
        L.length = videos.length ∧
        ∀ i, i < videos.length →
          L[i]? = some (pfxOrDefault customPfx ++ "_" ++ Nat.repr (i + 1))) ∧
      (∃ L, generate_custom_titles videos "Numbered Sequence" customPfx = some L ∧
        L.length = videos.length ∧
        ∀ i, i < videos.length → L[i]? = some ("track_" ++ Nat.repr (i + 1))) ∧
      pfxOrDefault none = "audio" ∧ pfxOrDefault (some "") = "audio" := by
  intro videos customPfx
  refine ⟨by simp [generate_custom_titles],
    ⟨(List.range videos.length).map
        (fun i => pfxOrDefault customPfx ++ "_" ++ Nat.repr (i + 1)),
      by simp [generate_custom_titles], by simp, ?_⟩,
    ⟨(List.range videos.length).map (fun i => "track_" ++ Nat.repr (i + 1)),
      by simp [generate_custom_titles], by simp, ?_⟩, rfl, rfl⟩
  · intro i hi
    simp [List.getElem?_map, List.getElem?_range hi]
  · intro i hi
    simp [List.getElem?_map, List.getElem?_range hi]

/-- C9 witness: the naming theorem applied at a concrete two-item list. -/
theorem generate_custom_titles_spec_witness :
    generate_custom_titles [sampleVideo1, sampleVideo2] "Original Video Titles"
        (some "mix") = some ["First Song", "Second Song"] := by
  have h := (generate_custom_titles_spec [sampleVideo1, sampleVideo2] (some "mix")).1
  simpa [sampleVideo1, sampleVideo2] using h

/-! ## C4 -/

/-- C4 counterexample: a batch invocation with two items and one name
(mismatched lengths) does not fail as a whole: the source truncates
(`custom_titles[:len(videos)]`, then `zip`) and processes the pairing, so
with an always-succeeding per-item downloader one download is attempted and
its path is returned — not a batch-level error with zero downloads
attempted. -/
theorem batch_download_mismatch_counterexample :
    batch_download [sampleVideo1, sampleVideo2] (some ["a"]) (fun _ t => some t) =
      ["a"] := rfl

/-- C4 (amended): on any names/items length mismatch, `batch_download`
raises no batch-level error and never fails before processing items: when
the names list is non-empty it processes exactly the truncated pairing
`zip(videos, custom_titles[:len(videos)])` (the `zip` truncating further
when the names are fewer) and accumulates the successful paths; when the
names list is empty, Python's `if not custom_titles:` treats it as absent,
substitutes the items' own titles, and every item is processed. -/
theorem batch_download_truncates :
    ∀ (videos : List VideoInfo) (ts : List String)
      (dl : VideoInfo → String → Option String),
      batch_download videos (some ts) dl =
        (videos.zip (if ts = [] then videos.map VideoInfo.title else ts)).filterMap
          (fun p => (dl p.1 p.2).bind (fun fp => if fp = "" then none else some fp)) := by
  intro videos ts dl
  have hzip : ∀ (vs : List VideoInfo) (l : List String),
      vs.zip (l.take vs.length) = vs.zip l := by
    intro vs
    induction vs with
    | nil => intro l; simp
    | cons v vs ih =>
      intro l
      cases l with
      | nil => simp
      | cons t l => simp [List.zip_cons_cons, ih l]
  have hloop : ∀ (l : List (VideoInfo × String)),
      batch_loop dl l =
        l.filterMap
          (fun p => (dl p.1 p.2).bind (fun fp => if fp = "" then none else some fp)) := by
    intro l
    induction l with
    | nil => rfl
    | cons p rest ih =>
      cases hdl : dl p.1 p.2 with
      | none => simp [batch_loop, hdl, ih]
      | some fp =>
        by_cases hfp : fp = "" <;> simp [batch_loop, hdl, hfp, ih]
  by_cases hts : ts = []
  · simp [batch_download, hts, hzip, hloop]
  · simp [batch_download, hts, hzip, hloop]

/-- C4 witness: the amended theorem applied at the mismatched concrete
input of the counterexample, and at an empty names list over two items. -/
theorem batch_download_truncates_witness :
    batch_download [sampleVideo1, sampleVideo2] (some ["a"]) (fun _ t => some t) =
      ([sampleVideo1, sampleVideo2].zip
          (if (["a"] : List String) = [] then
            [sampleVideo1, sampleVideo2].map VideoInfo.title
          else ["a"])).filterMap
        (fun p =>
          ((fun (_ : VideoInfo) (t : String) => some t) p.1 p.2).bind
            (fun fp => if fp = "" then none else some fp)) ∧
    batch_download [sampleVideo1, sampleVideo2] (some []) (fun _ t => some t) =
      ([sampleVideo1, sampleVideo2].zip
          (if ([] : List String) = [] then
            [sampleVideo1, sampleVideo2].map VideoInfo.title
          else [])).filterMap
        (fun p =>
          ((fun (_ : VideoInfo) (t : String) => some t) p.1 p.2).bind
            (fun fp => if fp = "" then none else some fp)) :=
  ⟨batch_download_truncates [sampleVideo1, sampleVideo2] ["a"] (fun _ t => some t),
   batch_download_truncates [sampleVideo1, sampleVideo2] [] (fun _ t => some t)⟩

/-! ## C2 -/

/-- Auxiliary: the lengths of a Boolean partition of a list add up to the
length of the list. -/
theorem length_filter_add_length_filter_not {α : Type} (p : α → Bool) :
    ∀ l : List α, (l.filter p).length + (l.filter (fun a => !p a)).length = l.length := by
  intro l
  induction l with
  | nil => rfl
  | cons a l ih => by_cases h : p a <;> simp [List.filter_cons, h, ← ih] <;> omega

/-- Auxiliary: `perform_loop` splits its input pairs into the successful
and failed first components, preserving order; no element is dropped and a
failing element never stops the traversal. -/
theorem perform_loop_eq (dl : VideoInfo → String → Except String (Option String)) :
    ∀ l : List (VideoInfo × String),
      perform_loop dl l =
        ((l.filter (dl_success dl)).map Prod.fst,
         (l.filter (fun p => !dl_success dl p)).map Prod.fst) := by
  intro l
  induction l with
  | nil => rfl
  | cons p rest ih =>
    by_cases h : dl_success dl p <;>
      simp [perform_loop, h, ih, List.filter_cons]

/-- C2: for every item list, parallel title list of the same length, and
per-item download behavior `dl` (which may succeed, report failure, or
raise), the batch run of `_perform_download` records exactly one outcome
per item — the successful and failed lists are the order-preserving
partition of the input by per-item result, and their lengths add up to the
item count — so a failure or exception on one item never aborts the
processing of later items. -/
theorem perform_download_partition :
    ∀ (videos : List VideoInfo) (titles : List String)
      (dl : VideoInfo → String → Except String (Option String)),
      titles.length = videos.length →
      (perform_download videos titles dl).1 =
          ((videos.zip titles).filter (dl_success dl)).map Prod.fst ∧
      (perform_download videos titles dl).2 =
          ((videos.zip titles).filter (fun p => !dl_success dl p)).map Prod.fst ∧
      (perform_download videos titles dl).1.length +
          (perform_download videos titles dl).2.length = videos.length := by
  intro videos titles dl hlen
  have h := perform_loop_eq dl (videos.zip titles)
  refine ⟨by rw [perform_download, h], by rw [perform_download, h], ?_⟩
  rw [perform_download, h]
  simp only [List.length_map]
  rw [length_filter_add_length_filter_not, List.length_zip, hlen, min_self]

/-- Concrete per-item behavior for the C2 witness: the second item's
transcode call raises, the others succeed. -/
def failSecond (v : VideoInfo) (_ : String) : Except String (Option String) :=
  if v = sampleVideo2 then Except.error "transcode failed"
  else Except.ok (some ("out/" ++ v.title ++ ".mp3"))

/-- C2 witness: a batch over three items where item 2 raises yields two
successes and one failure, order preserved, with item 3 still processed. -/
theorem perform_download_partition_witness :
    (perform_download [sampleVideo1, sampleVideo2, sampleVideo3] ["a", "b", "c"]
        failSecond).1 = [sampleVideo1, sampleVideo3] ∧
    (perform_download [sampleVideo1, sampleVideo2, sampleVideo3] ["a", "b", "c"]
        failSecond).2 = [sampleVideo2] := by
  have h := perform_download_partition [sampleVideo1, sampleVideo2, sampleVideo3]
    ["a", "b", "c"] failSecond (by decide)
  exact ⟨h.1.trans (by decide), h.2.1.trans (by decide)⟩

/-! ## C5 -/

/-- C5 counterexample: two distinct failure modes of `download_audio` —
the engine raising while the output file does exist on disk, and the engine
succeeding while the output file is missing — both return the bare value
`None`: the return value carries no human-readable reason (the reason is
only logged), and in the first case the expected output file exists after
the invocation yet the resolved path is not returned. -/
theorem download_audio_counterexample :
    download_audio [] "out" sampleVideo1 none "mp3" (Except.error "network down")
        (fun _ => true) = none ∧
    download_audio [] "out" sampleVideo1 none "mp3" (Except.ok ())
        (fun _ => false) = none := ⟨rfl, rfl⟩

/-- C5 (amended): `download_audio` is total (every engine fault is caught:
no exception propagates), and it returns `some` path exactly when the
engine invocation raised nothing and the expected output file exists on
disk afterwards — the path returned being the resolved unique path; in
every other case it returns `None`, which carries no failure reason. -/
theorem download_audio_spec :
    ∀ (fs : List String) (dir : String) (v : VideoInfo) (ct : Option String)
      (codec : String) (tr : Except String Unit) (ex : String → Bool) (p : String),
      download_audio fs dir v ct codec tr ex = some p ↔
        tr = Except.ok () ∧
        ex (generate_unique_filename fs dir
              (sanitize_filename (titleOrDefault ct v.title) 255) ("." ++ codec)) = true ∧
        p = generate_unique_filename fs dir
              (sanitize_filename (titleOrDefault ct v.title) 255) ("." ++ codec) := by
  intro fs dir v ct codec tr ex p
  cases tr with
  | error e => simp [download_audio]
  | ok u =>
    cases u
    by_cases hex : ex (generate_unique_filename fs dir
        (sanitize_filename (titleOrDefault ct v.title) 255) ("." ++ codec)) <;>
      simp [download_audio, hex, eq_comm]

/-- C5 witness: the amended characterization applied at a concrete
successful download. -/
theorem download_audio_spec_witness :
    download_audio [] "out" sampleVideo1 none "mp3" (Except.ok ())
        (fun _ => true) = some "out/First Song.mp3" :=
  (download_audio_spec [] "out" sampleVideo1 none "mp3" (Except.ok ())
      (fun _ => true) "out/First Song.mp3").mpr ⟨rfl, rfl, by decide⟩

/-! ## Sanitizer invariants (for C6, C7, C10) -/

/-- Every character of the substitution output is either an input character
or the replacement underscore. -/
theorem mem_replaceBadChars_cases {c : Char} {l : List Char}
    (h : c ∈ replaceBadChars l) : c ∈ l ∨ c = '_' := by
  rcases List.mem_map.1 h with ⟨a, ha, rfl⟩
  by_cases hall : isAllowedChar a = true
  · exact Or.inl (by simpa [hall] using ha)
  · right
    simp [hall]

/-- Every character of the substitution output is in the allowed set. -/
theorem allowed_of_mem_replaceBadChars {c : Char} {l : List Char}
    (h : c ∈ replaceBadChars l) : isAllowedChar c = true := by
  rcases List.mem_map.1 h with ⟨a, _, rfl⟩
  by_cases hall : isAllowedChar a = true
  · simp only [hall, if_true]
  · simp only [hall, Bool.false_eq_true, if_false]
    decide

/-- Every character of the whitespace-collapsed output is an input
character or the single space it emits. -/
theorem mem_collapseWsGo_cases {c : Char} :
    ∀ {b : Bool} {l : List Char}, c ∈ collapseWsGo b l → c ∈ l ∨ c = ' ' := by
  intro b l
  induction l generalizing b with
  | nil => intro h; simp [collapseWsGo] at h
  | cons a rest ih =>
    intro h
    by_cases hsp : isPySpace a = true
    · cases b with
      | true =>
        simp only [collapseWsGo, hsp, if_true] at h
        rcases ih h with h' | h'
        · exact Or.inl (List.mem_cons_of_mem _ h')
        · exact Or.inr h'
      | false =>
        simp only [collapseWsGo, hsp, if_true] at h
        rcases List.mem_cons.1 h with rfl | h'
        · exact Or.inr rfl
        · rcases ih h' with h'' | h''
          · exact Or.inl (List.mem_cons_of_mem _ h'')
          · exact Or.inr h''
    · simp only [collapseWsGo, hsp] at h
      rcases List.mem_cons.1 h with rfl | h'
      · exact Or.inl (List.mem_cons_self _ _)
      · rcases ih h' with h'' | h''
        · exact Or.inl (List.mem_cons_of_mem _ h'')
        · exact Or.inr h''

/-- Stripping only removes characters. -/
theorem mem_stripDotSpace {c : Char} {l : List Char}
    (h : c ∈ stripDotSpace l) : c ∈ l := by
  unfold stripDotSpace at h
  have h1 := (List.dropWhile_suffix (l := (l.dropWhile isStripChar).reverse)
    isStripChar).subset (List.mem_reverse.1 h)
  exact (List.dropWhile_suffix (l := l) isStripChar).subset (List.mem_reverse.1 h1)

/-- Every character surviving the full transform chain (before truncation
and fallback) is in the allowed set. -/
theorem allowed_of_mem_core {c : Char} {x : List Char}
    (h : c ∈ stripDotSpace (collapseWs (replaceBadChars x))) :
    isAllowedChar c = true := by
  rcases mem_collapseWsGo_cases (mem_stripDotSpace h) with h' | rfl
  · exact allowed_of_mem_replaceBadChars h'
  · rfl

/-- Every character surviving the full transform chain is ASCII. -/
theorem ascii_of_mem_core {c : Char} {x : List Char}
    (h : c ∈ stripDotSpace (collapseWs (replaceBadChars (toAsciiChars x)))) :
    c.toNat ≤ 127 := by
  rcases mem_collapseWsGo_cases (mem_stripDotSpace h) with h' | rfl
  · rcases mem_replaceBadChars_cases h' with h'' | rfl
    · exact of_decide_eq_true (List.mem_filter.1 h'').2
    · decide
  · decide

/-! ## C6 -/

/-- C6: for every input string and every maximum length, `sanitize`
returns (it is a total function: no step of the source can raise), its
output contains only characters of the safe set — letters, digits, hyphen,
underscore, period, space, exactly the `isAllowedChar` set — and the output
is never empty: when the transforms yield the empty string the fixed
fallback literal `"unnamed_file"` is returned. -/
theorem sanitize_filename_safe :
    ∀ (s : String) (m : Nat),
      (∀ c ∈ (sanitize_filename s m).data, isAllowedChar c = true) ∧
      sanitize_filename s m ≠ "" := by
  intro s m
  unfold sanitize_filename
  by_cases h :
      ((stripDotSpace (collapseWs (replaceBadChars (toAsciiChars s.data)))).take
        m).isEmpty
  · simp only [h, if_true]
    exact ⟨by decide, by decide⟩
  · simp only [h, if_false, Bool.false_eq_true]
    constructor
    · intro c hc
      exact allowed_of_mem_core (List.mem_of_mem_take hc)
    · intro heq
      have : ((stripDotSpace (collapseWs (replaceBadChars
          (toAsciiChars s.data)))).take m) = [] := congrArg String.data heq
      rw [this] at h
      exact h rfl

/-- C6 witness: the safety theorem applied at a concrete input. -/
theorem sanitize_filename_safe_witness :
    (∀ c ∈ (sanitize_filename "a/b: c?" 255).data, isAllowedChar c = true) ∧
    sanitize_filename "a/b: c?" 255 ≠ "" :=
  sanitize_filename_safe "a/b: c?" 255

/-! ## C7 -/

/-- C7 counterexample: the substitution `re.sub(r'[^\w\-_\. ]', '_', s)`
replaces each disallowed character individually, so the run of two
disallowed characters in `"a!!b"` yields two underscores, not the single
underscore the claim requires. -/
theorem sanitize_run_counterexample :
    sanitize_filename "a!!b" 255 = "a__b" ∧ sanitize_filename "a!!b" 255 ≠ "a_b" :=
  ⟨rfl, by decide⟩

/-- Collapsing whitespace is the identity on lists without whitespace. -/
theorem collapseWsGo_of_no_space :
    ∀ (l : List Char) (b : Bool), (∀ c ∈ l, isPySpace c = false) →
      collapseWsGo b l = l := by
  intro l
  induction l with
  | nil => intro b _; rfl
  | cons a rest ih =>
    intro b h
    have ha : isPySpace a = false := h a (List.mem_cons_self _ _)
    simp only [collapseWsGo, ha, Bool.false_eq_true, if_false]
    rw [ih false (fun c hc => h c (List.mem_cons_of_mem _ hc))]

/-- C7 (amended): a maximal run of `n` consecutive disallowed characters
contributes exactly `n` underscores to the sanitized output — one per
character — not a single underscore. -/
theorem sanitize_underscore_per_char :
    ∀ n : Nat, n + 2 ≤ 255 →
      sanitize_filename (String.mk ('a' :: (List.replicate n '!' ++ ['b']))) 255 =
        String.mk ('a' :: (List.replicate n '_' ++ ['b'])) := by
  intro n hn
  have hascii : toAsciiChars ('a' :: (List.replicate n '!' ++ ['b'])) =
      'a' :: (List.replicate n '!' ++ ['b']) := by
    apply List.filter_eq_self.mpr
    intro c hc
    simp only [List.mem_cons, List.mem_append, List.mem_replicate,
      List.not_mem_nil, or_false] at hc
    rcases hc with rfl | ⟨_, rfl⟩ | rfl <;> decide
  have hreplace : replaceBadChars ('a' :: (List.replicate n '!' ++ ['b'])) =
      'a' :: (List.replicate n '_' ++ ['b']) := by
    simp only [replaceBadChars, List.map_cons, List.map_append, List.map_replicate]
    rfl
  have hcollapse : collapseWs ('a' :: (List.replicate n '_' ++ ['b'])) =
      'a' :: (List.replicate n '_' ++ ['b']) := by
    apply collapseWsGo_of_no_space
    intro c hc
    simp only [List.mem_cons, List.mem_append, List.mem_replicate,
      List.not_mem_nil, or_false] at hc
    rcases hc with rfl | ⟨_, rfl⟩ | rfl <;> decide
  have hstrip : stripDotSpace ('a' :: (List.replicate n '_' ++ ['b'])) =
      'a' :: (List.replicate n '_' ++ ['b']) := by
    unfold stripDotSpace
    rw [List.dropWhile_cons, if_neg (by decide : ¬isStripChar 'a' = true)]
    rw [show ('a' :: (List.replicate n '_' ++ ['b'])).reverse =
        'b' :: ((List.replicate n '_').reverse ++ ['a']) by
      simp [List.reverse_cons, List.reverse_append]]
    rw [List.dropWhile_cons, if_neg (by decide : ¬isStripChar 'b' = true)]
    simp [List.reverse_cons, List.reverse_append]
  have hlen : ('a' :: (List.replicate n '_' ++ ['b'])).length ≤ 255 := by
    simp
    omega
  simp only [sanitize_filename]
  rw [hascii, hreplace, hcollapse, hstrip, List.take_of_length_le hlen]
  rfl

/-- C7 witness: the amended theorem applied at a run of three disallowed
characters. -/
theorem sanitize_underscore_per_char_witness :
    sanitize_filename (String.mk ('a' :: (List.replicate 3 '!' ++ ['b']))) 255 =
      String.mk ('a' :: (List.replicate 3 '_' ++ ['b'])) :=
  sanitize_underscore_per_char 3 (by omega)

/-! ## Fixpoint lemmas for the sanitizer (C10) -/

/-- Adjacent characters are not both whitespace. -/
def spacedApart (a b : Char) : Prop :=
  ¬(isPySpace a = true ∧ isPySpace b = true)

/-- The ASCII filter is the identity on all-ASCII lists. -/
theorem toAscii_eq_self {l : List Char} (h : ∀ c ∈ l, c.toNat ≤ 127) :
    toAsciiChars l = l :=
  List.filter_eq_self.mpr (fun c hc => decide_eq_true (h c hc))

/-- The character substitution is the identity on all-allowed lists. -/
theorem replaceBad_eq_self {l : List Char} (h : ∀ c ∈ l, isAllowedChar c = true) :
    replaceBadChars l = l := by
  unfold replaceBadChars
  have hcg : ∀ c ∈ l, (if isAllowedChar c = true then c else '_') = id c :=
    fun c hc => if_pos (h c hc)
  rw [List.map_congr_left hcg, List.map_id]

/-- The collapse pass emits no two adjacent whitespace characters, and in
the just-skipped state its output never begins with whitespace. -/
theorem collapse_chain :
    ∀ l : List Char,
      List.Chain' spacedApart (collapseWsGo true l) ∧
      List.Chain' spacedApart (collapseWsGo false l) ∧
      ∀ c, (collapseWsGo true l).head? = some c → isPySpace c = false := by
  intro l
  induction l with
  | nil => exact ⟨List.chain'_nil, List.chain'_nil, by intro c hc; simp [collapseWsGo] at hc⟩
  | cons a rest ih =>
    obtain ⟨ihT, ihF, ihH⟩ := ih
    by_cases hsp : isPySpace a = true
    · refine ⟨by simpa [collapseWsGo, hsp] using ihT, ?_, ?_⟩
      · simp only [collapseWsGo, hsp, if_true]
        refine List.chain'_cons'.2 ⟨?_, ihT⟩
        intro y hy
        intro hcontra
        rw [ihH y (Option.mem_def.1 hy)] at hcontra
        exact Bool.false_ne_true hcontra.2
      · intro c hc
        simp only [collapseWsGo, hsp, if_true] at hc
        exact ihH c hc
    · have ha : isPySpace a = false := Bool.not_eq_true _ ▸ eq_false_of_ne_true hsp
      refine ⟨?_, ?_, ?_⟩
      · simp only [collapseWsGo, hsp, Bool.false_eq_true, if_false]
        refine List.chain'_cons'.2 ⟨?_, ihF⟩
        intro y _ hcontra
        rw [ha] at hcontra
        exact Bool.false_ne_true hcontra.1
      · simp only [collapseWsGo, hsp, Bool.false_eq_true, if_false]
        refine List.chain'_cons'.2 ⟨?_, ihF⟩
        intro y _ hcontra
        rw [ha] at hcontra
        exact Bool.false_ne_true hcontra.1
      · intro c hc
        simp only [collapseWsGo, hsp, Bool.false_eq_true, if_false,
          List.head?_cons, Option.some.injEq] at hc
        rw [← hc]
        exact ha

/-- `spacedApart` chains survive reversal. -/
theorem chain_spacedApart_reverse {l : List Char}
    (h : List.Chain' spacedApart l) : List.Chain' spacedApart l.reverse := by
  rw [List.chain'_reverse]
  exact h.imp (fun a b hab => fun hc => hab ⟨hc.2, hc.1⟩)

/-- `spacedApart` chains survive stripping. -/
theorem chain_spacedApart_strip {l : List Char}
    (h : List.Chain' spacedApart l) :
    List.Chain' spacedApart (stripDotSpace l) := by
  unfold stripDotSpace
  exact chain_spacedApart_reverse
    ((chain_spacedApart_reverse (h.suffix (List.dropWhile_suffix _))).suffix
      (List.dropWhile_suffix _))

/-- The skip state is irrelevant when the input does not begin with
whitespace. -/
theorem collapse_go_true_eq_false {l : List Char}
    (h : ∀ c, l.head? = some c → isPySpace c = false) :
    collapseWsGo true l = collapseWsGo false l := by
  cases l with
  | nil => rfl
  | cons a rest =>
    have := h a rfl
    simp [collapseWsGo, this]

/-- Collapsing is the identity when every whitespace character is already
the single space and no two of them are adjacent. -/
theorem collapse_eq_self {l : List Char}
    (hsp : ∀ c ∈ l, isPySpace c = true → c = ' ')
    (hch : List.Chain' spacedApart l) : collapseWs l = l := by
  suffices H : ∀ l' : List Char, (∀ c ∈ l', isPySpace c = true → c = ' ') →
      List.Chain' spacedApart l' → collapseWsGo false l' = l' from H l hsp hch
  intro l'
  induction l' with
  | nil => intro _ _; rfl
  | cons a rest ih =>
    intro hsp' hch'
    obtain ⟨hhead, htail⟩ := List.chain'_cons'.1 hch'
    have hihtail : ∀ c ∈ rest, isPySpace c = true → c = ' ' :=
      fun c hc => hsp' c (List.mem_cons_of_mem _ hc)
    by_cases ha : isPySpace a = true
    · have ha' : a = ' ' := hsp' a (List.mem_cons_self _ _) ha
      simp only [collapseWsGo, ha, if_true]
      have hhd : ∀ c, rest.head? = some c → isPySpace c = false := by
        intro c hc
        by_cases hcc : isPySpace c = true
        · exact absurd ⟨ha, hcc⟩ (hhead c (Option.mem_def.2 hc))
        · exact Bool.not_eq_true _ ▸ eq_false_of_ne_true hcc
      rw [collapse_go_true_eq_false hhd, ih hihtail htail, ha']
      simp
    · simp only [collapseWsGo, ha, Bool.false_eq_true, if_false]
      rw [ih hihtail htail]

/-- Dropping a prefix twice is the same as dropping it once. -/
theorem dropWhile_idem {α : Type} (p : α → Bool) :
    ∀ l : List α, List.dropWhile p (List.dropWhile p l) = List.dropWhile p l := by
  intro l
  induction l with
  | nil => rfl
  | cons a l ih =>
    by_cases h : p a = true
    · simp [List.dropWhile_cons, h, ih]
    · simp [List.dropWhile_cons, h]

/-- The head surviving `dropWhile` does not satisfy the predicate. -/
theorem head?_dropWhile {α : Type} (p : α → Bool) :
    ∀ (l : List α) (c : α), (List.dropWhile p l).head? = some c → p c = false := by
  intro l
  induction l with
  | nil => intro c hc; simp at hc
  | cons a l ih =>
    intro c hc
    by_cases h : p a = true
    · rw [List.dropWhile_cons, if_pos h] at hc
      exact ih c hc
    · rw [List.dropWhile_cons, if_neg h, List.head?_cons, Option.some.injEq] at hc
      rw [← hc]
      exact Bool.not_eq_true _ ▸ eq_false_of_ne_true h

/-- `dropWhile` is the identity when the head does not satisfy the
predicate. -/
theorem dropWhile_eq_self_of_head {α : Type} (p : α → Bool) (l : List α)
    (h : ∀ c, l.head? = some c → p c = false) : List.dropWhile p l = l := by
  cases l with
  | nil => rfl
  | cons a l =>
    rw [List.dropWhile_cons, if_neg]
    rw [h a rfl]
    simp

/-- Back-stripping yields a prefix of the original list. -/
theorem backStrip_pre {α : Type} (p : α → Bool) (l : List α) :
    (l.reverse.dropWhile p).reverse <+: l := by
  have h : ((l.reverse.dropWhile p).reverse).reverse <:+ l.reverse := by
    rw [List.reverse_reverse]
    exact List.dropWhile_suffix p
  exact List.reverse_suffix.1 h

/-- A non-empty prefix shares its head with the original list. -/
theorem prefix_head? {α : Type} {l₁ l₂ : List α} (h : l₁ <+: l₂) (hne : l₁ ≠ []) :
    l₁.head? = l₂.head? := by
  rcases h with ⟨t, rfl⟩
  cases l₁ with
  | nil => exact absurd rfl hne
  | cons a l => simp

/-- Stripping twice is the same as stripping once. -/
theorem stripDotSpace_idem (l : List Char) :
    stripDotSpace (stripDotSpace l) = stripDotSpace l := by
  have hBA : ∀ m : List Char,
      ((m.reverse.dropWhile isStripChar).reverse.reverse.dropWhile
        isStripChar).reverse = (m.reverse.dropWhile isStripChar).reverse := by
    intro m
    rw [List.reverse_reverse, dropWhile_idem]
  have hfront : List.dropWhile isStripChar
      (((l.dropWhile isStripChar).reverse.dropWhile isStripChar).reverse) =
      ((l.dropWhile isStripChar).reverse.dropWhile isStripChar).reverse := by
    by_cases hne :
        ((l.dropWhile isStripChar).reverse.dropWhile isStripChar).reverse = []
    · rw [hne]
      rfl
    · apply dropWhile_eq_self_of_head
      intro c hc
      rw [prefix_head? (backStrip_pre isStripChar (l.dropWhile isStripChar)) hne]
        at hc
      exact head?_dropWhile isStripChar l c hc
  show stripDotSpace (((l.dropWhile isStripChar).reverse.dropWhile
      isStripChar).reverse) = _
  unfold stripDotSpace
  rw [hfront]
  exact hBA (l.dropWhile isStripChar)

/-- An allowed whitespace character is the space itself. -/
theorem space_of_allowed {c : Char} (hall : isAllowedChar c = true)
    (hsp : isPySpace c = true) : c = ' ' := by
  simp only [isPySpace, Bool.or_eq_true, beq_iff_eq] at hsp
  rcases hsp with ((((rfl | rfl) | rfl) | rfl) | rfl) | rfl <;>
    first
    | rfl
    | exact absurd hall (by decide)

/-- The transform chain of the sanitizer (before truncation and fallback)
is idempotent: its output is a fixed point of each of its passes. -/
theorem core_fixpoint (x : List Char) :
    stripDotSpace (collapseWs (replaceBadChars (toAsciiChars
      (stripDotSpace (collapseWs (replaceBadChars (toAsciiChars x))))))) =
    stripDotSpace (collapseWs (replaceBadChars (toAsciiChars x))) := by
  have hascii : toAsciiChars
      (stripDotSpace (collapseWs (replaceBadChars (toAsciiChars x)))) =
      stripDotSpace (collapseWs (replaceBadChars (toAsciiChars x))) :=
    toAscii_eq_self (fun _ hc => ascii_of_mem_core hc)
  have hrep : replaceBadChars
      (stripDotSpace (collapseWs (replaceBadChars (toAsciiChars x)))) =
      stripDotSpace (collapseWs (replaceBadChars (toAsciiChars x))) :=
    replaceBad_eq_self (fun _ hc => allowed_of_mem_core hc)
  have hch : List.Chain' spacedApart
      (stripDotSpace (collapseWs (replaceBadChars (toAsciiChars x)))) :=
    chain_spacedApart_strip
      ((collapse_chain (replaceBadChars (toAsciiChars x))).2.1)
  have hcol : collapseWs
      (stripDotSpace (collapseWs (replaceBadChars (toAsciiChars x)))) =
      stripDotSpace (collapseWs (replaceBadChars (toAsciiChars x))) :=
    collapse_eq_self
      (fun _ hc hspc => space_of_allowed (allowed_of_mem_core hc) hspc) hch
  rw [hascii, hrep, hcol, stripDotSpace_idem]

/-- A string whose character list is a fixed point of the transform chain,
is short enough, and is non-empty, is returned unchanged by `sanitize`. -/
theorem sanitize_eq_of_fixpoint (t : String) (m : Nat)
    (hcore : stripDotSpace (collapseWs (replaceBadChars (toAsciiChars t.data))) =
      t.data)
    (hlen : t.data.length ≤ m) (hne : t.data ≠ []) :
    sanitize_filename t m = t := by
  have hunfold : sanitize_filename t m =
      if ((stripDotSpace (collapseWs (replaceBadChars
            (toAsciiChars t.data)))).take m).isEmpty = true then "unnamed_file"
      else String.mk ((stripDotSpace (collapseWs (replaceBadChars
            (toAsciiChars t.data)))).take m) := rfl
  rw [hunfold, hcore, List.take_of_length_le hlen, if_neg]
  intro hh
  exact hne (List.isEmpty_iff.1 hh)

/-! ## C10 -/

/-- C10: for every input string whose sanitized result is strictly shorter
than the maximum length, `sanitize` is idempotent: applying it to its own
output returns that output unchanged.  (The single-item downloader relies
on this: it sanitizes the title and passes the result through
`generate_unique_filename`, which sanitizes again.) -/
theorem sanitize_filename_idempotent :
    ∀ (s : String) (m : Nat), (sanitize_filename s m).length < m →
      sanitize_filename (sanitize_filename s m) m = sanitize_filename s m := by
  intro s m hlt
  have hunfold : sanitize_filename s m =
      if ((stripDotSpace (collapseWs (replaceBadChars
            (toAsciiChars s.data)))).take m).isEmpty = true then "unnamed_file"
      else String.mk ((stripDotSpace (collapseWs (replaceBadChars
            (toAsciiChars s.data)))).take m) := rfl
  by_cases hemp : ((stripDotSpace (collapseWs (replaceBadChars
      (toAsciiChars s.data)))).take m).isEmpty = true
  · have ho : sanitize_filename s m = "unnamed_file" := by rw [hunfold, if_pos hemp]
    rw [ho] at hlt ⊢
    have h12 : "unnamed_file".length = 12 := rfl
    apply sanitize_eq_of_fixpoint
    · decide
    · have hd : "unnamed_file".data.length = 12 := rfl
      rw [h12] at hlt
      omega
    · decide
  · have ho : sanitize_filename s m =
        String.mk ((stripDotSpace (collapseWs (replaceBadChars
          (toAsciiChars s.data)))).take m) := by rw [hunfold, if_neg hemp]
    rw [ho] at hlt
    have hrlen : (stripDotSpace (collapseWs (replaceBadChars
        (toAsciiChars s.data)))).length < m := by
      rcases le_or_lt m (stripDotSpace (collapseWs (replaceBadChars
          (toAsciiChars s.data)))).length with hle | hlt'
      · exfalso
        have : (String.mk ((stripDotSpace (collapseWs (replaceBadChars
            (toAsciiChars s.data)))).take m)).length = m := by
          show ((stripDotSpace (collapseWs (replaceBadChars
            (toAsciiChars s.data)))).take m).length = m
          rw [List.length_take]
          omega
        omega
      · exact hlt'
    have htake : (stripDotSpace (collapseWs (replaceBadChars
        (toAsciiChars s.data)))).take m =
        stripDotSpace (collapseWs (replaceBadChars (toAsciiChars s.data))) :=
      List.take_of_length_le (le_of_lt hrlen)
    have ho2 : sanitize_filename s m =
        String.mk (stripDotSpace (collapseWs (replaceBadChars
          (toAsciiChars s.data)))) := by rw [ho, htake]
    rw [ho2]
    apply sanitize_eq_of_fixpoint
    · exact core_fixpoint s.data
    · exact le_of_lt hrlen
    · intro hnil
      apply hemp
      have hnil' : stripDotSpace (collapseWs (replaceBadChars
          (toAsciiChars s.data))) = [] := hnil
      rw [hnil', List.take_nil]
      rfl

/-- C10 witness: idempotence applied at a concrete input whose sanitized
result is shorter than the maximum length. -/
theorem sanitize_filename_idempotent_witness :
    sanitize_filename (sanitize_filename "hello world!" 255) 255 =
      sanitize_filename "hello world!" 255 :=
  sanitize_filename_idempotent "hello world!" 255 (by decide)

/-! ## Injectivity of decimal numerals (for C8)

The collision counter is rendered with Python's `str(counter)`; the
embedding uses `Nat.repr`.  Distinctness of the probed candidate paths
reduces to injectivity of `Nat.repr`, proved here via an explicit digit
list. -/

/-- The decimal digit characters of `n`, most significant first. -/
def reprDigits (n : Nat) : List Char :=
  if n < 10 then [Nat.digitChar n]
  else reprDigits (n / 10) ++ [Nat.digitChar (n % 10)]
decreasing_by exact Nat.div_lt_self (by omega) (by omega)

/-- Core's fueled digit printer agrees with `reprDigits` when the fuel
exceeds the number. -/
theorem toDigitsCore_eq_reprDigits :
    ∀ (fuel n : Nat) (ds : List Char), n < fuel →
      Nat.toDigitsCore 10 fuel n ds = reprDigits n ++ ds := by
  intro fuel
  induction fuel with
  | zero => intro n ds h; omega
  | succ f ih =>
    intro n ds h
    simp only [Nat.toDigitsCore]
    by_cases h10 : n / 10 = 0
    · have hlt : n < 10 := (Nat.div_eq_zero_iff (by omega)).1 h10
      rw [if_pos h10, reprDigits, if_pos hlt, Nat.mod_eq_of_lt hlt]
      rfl
    · have hge : 10 ≤ n := by
        rcases Nat.lt_or_ge n 10 with hlt | hge
        · exact absurd ((Nat.div_eq_zero_iff (by omega)).2 hlt) h10
        · exact hge
      have hdiv : n / 10 < n := Nat.div_lt_self (by omega) (by omega)
      rw [if_neg h10, ih (n / 10) _ (by omega)]
      rw [show reprDigits n = reprDigits (n / 10) ++ [Nat.digitChar (n % 10)] from by
        rw [reprDigits, if_neg (by omega)]]
      simp [List.append_assoc]

/-- `Nat.repr` in terms of `reprDigits`. -/
theorem repr_eq_reprDigits (n : Nat) : Nat.repr n = String.mk (reprDigits n) := by
  show (Nat.toDigits 10 n).asString = String.mk (reprDigits n)
  rw [Nat.toDigits, toDigitsCore_eq_reprDigits (n + 1) n [] (by omega),
    List.append_nil]
  rfl

/-- Numeric value of a digit character. -/
def digitVal (c : Char) : Nat := c.toNat - 48

/-- Value of a digit character list, most significant first. -/
def digitsVal (l : List Char) : Nat :=
  l.foldl (fun acc c => acc * 10 + digitVal c) 0

/-- Round trip for single digits. -/
theorem digitVal_digitChar : ∀ d : Nat, d < 10 → digitVal (Nat.digitChar d) = d := by
  intro d hd
  interval_cases d <;> rfl

/-- The digit list of `n` evaluates back to `n`. -/
theorem digitsVal_reprDigits : ∀ n : Nat, digitsVal (reprDigits n) = n := by
  intro n
  induction n using Nat.strong_induction_on with
  | _ n ih =>
    rw [reprDigits]
    by_cases h : n < 10
    · rw [if_pos h]
      simp [digitsVal, digitVal_digitChar n h]
    · rw [if_neg h]
      have hdiv : n / 10 < n := Nat.div_lt_self (by omega) (by omega)
      have hmod : n % 10 < 10 := Nat.mod_lt _ (by omega)
      show List.foldl (fun acc c => acc * 10 + digitVal c) 0
        (reprDigits (n / 10) ++ [Nat.digitChar (n % 10)]) = n
      rw [List.foldl_append]
      have hih : List.foldl (fun acc c => acc * 10 + digitVal c) 0
          (reprDigits (n / 10)) = n / 10 := ih (n / 10) hdiv
      rw [hih]
      show n / 10 * 10 + digitVal (Nat.digitChar (n % 10)) = n
      rw [digitVal_digitChar _ hmod]
      omega

/-- Digit lists are injective. -/
theorem reprDigits_inj {a b : Nat} (h : reprDigits a = reprDigits b) : a = b := by
  rw [← digitsVal_reprDigits a, h, digitsVal_reprDigits]

/-- `Nat.repr` is injective. -/
theorem nat_repr_injective : Function.Injective Nat.repr := by
  intro a b h
  rw [repr_eq_reprDigits, repr_eq_reprDigits] at h
  exact reprDigits_inj (congrArg String.data h)

/-- Digit lists are never empty. -/
theorem reprDigits_ne_nil (n : Nat) : reprDigits n ≠ [] := by
  rw [reprDigits]
  by_cases h : n < 10 <;> simp [h]

/-- Decimal numerals are never the empty string. -/
theorem repr_length_pos (n : Nat) : 0 < (Nat.repr n).length := by
  rw [repr_eq_reprDigits]
  show 0 < (reprDigits n).length
  cases hd : reprDigits n with
  | nil => exact absurd hd (reprDigits_ne_nil n)
  | cons c l => simp

/-! ## Candidate path distinctness and loop correctness (for C8) -/

/-- Distinct collision counters probe distinct paths. -/
theorem candidatePath_inj (base clean ext : String) :
    Function.Injective (candidatePath base clean ext) := by
  intro k1 k2 h
  unfold candidatePath os_path_join at h
  by_cases h1 : k1 = 0 <;> by_cases h2 : k2 = 0
  · rw [h1, h2]
  · exfalso
    rw [if_pos h1, if_neg h2] at h
    have hlen := congrArg String.length h
    simp only [String.length_append] at hlen
    have := repr_length_pos k2
    omega
  · exfalso
    rw [if_neg h1, if_pos h2] at h
    have hlen := congrArg String.length h
    simp only [String.length_append] at hlen
    have := repr_length_pos k1
    omega
  · rw [if_neg h1, if_neg h2] at h
    have hd := congrArg String.data h
    simp only [String.data_append, List.append_assoc] at hd
    have h3 := List.append_cancel_left hd
    have h4 := List.append_cancel_left h3
    have h5 := List.append_cancel_left h4
    have h6 := List.append_cancel_left h5
    have h7 := List.append_cancel_right h6
    exact nat_repr_injective (String.ext h7)

/-- Correctness of the probing loop: if some candidate within the fuel
budget is free, the loop returns the candidate with the least counter
at least `k` whose path does not exist, and every earlier probe hit. -/
theorem uniqueLoop_spec (fs : List String) (base clean ext : String) :
    ∀ (fuel k : Nat),
      (∃ j, k ≤ j ∧ j ≤ k + fuel ∧ candidatePath base clean ext j ∉ fs) →
      ∃ j, uniqueLoop fs base clean ext fuel k = candidatePath base clean ext j ∧
        k ≤ j ∧ candidatePath base clean ext j ∉ fs ∧
        ∀ i, k ≤ i → i < j → candidatePath base clean ext i ∈ fs := by
  intro fuel
  induction fuel with
  | zero =>
    rintro k ⟨j, hkj, hjk, hnot⟩
    have hj : j = k := by omega
    subst hj
    exact ⟨j, rfl, Nat.le_refl _, hnot, fun i hi1 hi2 => absurd hi1 (by omega)⟩
  | succ f ih =>
    rintro k ⟨j, hkj, hjk, hnot⟩
    by_cases hmem : candidatePath base clean ext k ∈ fs
    · have hjne : j ≠ k := fun hh => hnot (hh ▸ hmem)
      obtain ⟨j', heq, hle, hnot', hfirst⟩ :=
        ih (k + 1) ⟨j, by omega, by omega, hnot⟩
      refine ⟨j', ?_, by omega, hnot', ?_⟩
      · simp only [uniqueLoop]
        rw [if_pos hmem]
        exact heq
      · intro i hi1 hi2
        rcases Nat.eq_or_lt_of_le hi1 with hh | hh
        · rw [← hh]
          exact hmem
        · exact hfirst i (by omega) hi2
    · refine ⟨k, ?_, Nat.le_refl _, hmem, fun i hi1 hi2 => absurd hi1 (by omega)⟩
      simp only [uniqueLoop]
      rw [if_neg hmem]

/-- Pigeonhole: among `fs.length + 1` consecutive candidate paths, at least
one does not exist in the snapshot. -/
theorem exists_free_candidate (fs : List String) (base clean ext : String) (k : Nat) :
    ∃ j, k ≤ j ∧ j ≤ k + fs.length ∧ candidatePath base clean ext j ∉ fs := by
  by_contra hcon
  push_neg at hcon
  have hsub : (Finset.range (fs.length + 1)).image
      (fun i => candidatePath base clean ext (k + i)) ⊆ fs.toFinset := by
    intro x hx
    rcases Finset.mem_image.1 hx with ⟨i, hi, rfl⟩
    have hi' := Finset.mem_range.1 hi
    exact List.mem_toFinset.2 (hcon (k + i) (by omega) (by omega))
  have hinj : Function.Injective (fun i : Nat => candidatePath base clean ext (k + i)) := by
    intro a b hab
    have := candidatePath_inj base clean ext hab
    omega
  have hcard := Finset.card_le_card hsub
  rw [Finset.card_image_of_injective _ hinj, Finset.card_range] at hcard
  have := List.toFinset_card_le fs
  omega

/-! ## C8 -/

/-- C8: for every directory snapshot, base name and extension, `resolve`
returns a path not in the snapshot; being a pure function of the snapshot
it is deterministic; it tries candidates in the order `name.ext`,
`name_1.ext`, `name_2.ext`, … (the returned path is the first free
candidate, every earlier candidate being present in the snapshot); and
resolving against the empty snapshot and then again after the first result
has been created yields `name.ext` then `name_1.ext`. -/
theorem generate_unique_filename_spec :
    ∀ (fs : List String) (base filename extension : String),
      generate_unique_filename fs base filename extension ∉ fs ∧
      (∃ j, generate_unique_filename fs base filename extension =
          candidatePath base (sanitize_filename filename 255) extension j ∧
        ∀ i, i < j →
          candidatePath base (sanitize_filename filename 255) extension i ∈ fs) ∧
      generate_unique_filename [] base filename extension =
        os_path_join base (sanitize_filename filename 255 ++ extension) ∧
      generate_unique_filename
          [os_path_join base (sanitize_filename filename 255 ++ extension)]
          base filename extension =
        os_path_join base (sanitize_filename filename 255 ++ "_1" ++ extension) := by
  intro fs base filename extension
  obtain ⟨jf, h1, h2, h3⟩ :=
    exists_free_candidate fs base (sanitize_filename filename 255) extension 0
  obtain ⟨j, heq, _, hnot, hfirst⟩ :=
    uniqueLoop_spec fs base (sanitize_filename filename 255) extension
      (fs.length + 1) 0 ⟨jf, h1, by omega, h3⟩
  have hgen : generate_unique_filename fs base filename extension =
      uniqueLoop fs base (sanitize_filename filename 255) extension
        (fs.length + 1) 0 := rfl
  refine ⟨?_, ⟨j, ?_, ?_⟩, ?_, ?_⟩
  · rw [hgen, heq]
    exact hnot
  · rw [hgen, heq]
  · intro i hi
    exact hfirst i (by omega) hi
  · show uniqueLoop [] base (sanitize_filename filename 255) extension 1 0 =
      os_path_join base (sanitize_filename filename 255 ++ extension)
    simp only [uniqueLoop]
    rw [if_neg (List.not_mem_nil _)]
    rfl
  · have hne : candidatePath base (sanitize_filename filename 255) extension 1 ≠
        candidatePath base (sanitize_filename filename 255) extension 0 := by
      intro hh
      have := candidatePath_inj base (sanitize_filename filename 255) extension hh
      omega
    show uniqueLoop
        [os_path_join base (sanitize_filename filename 255 ++ extension)]
        base (sanitize_filename filename 255) extension 2 0 =
      os_path_join base (sanitize_filename filename 255 ++ "_1" ++ extension)
    simp only [uniqueLoop]
    rw [if_pos (by
      show candidatePath base (sanitize_filename filename 255) extension 0 ∈ _
      simp [candidatePath])]
    rw [if_neg (by
      intro hh
      exact hne (by simpa [candidatePath] using hh))]
    show os_path_join base
        (sanitize_filename filename 255 ++ "_" ++ Nat.repr 1 ++ extension) =
      os_path_join base (sanitize_filename filename 255 ++ "_1" ++ extension)
    unfold os_path_join
    apply String.ext
    simp [String.data_append, List.append_assoc]
    rw [show (Nat.repr 1).data = ['1'] from rfl]
    simp

/-- C8 witness: the resolver theorem applied at a concrete snapshot. -/
theorem generate_unique_filename_spec_witness :
    generate_unique_filename ["music/song.mp3"] "music" "song" ".mp3" ∉
      ["music/song.mp3"] :=
  (generate_unique_filename_spec ["music/song.mp3"] "music" "song" ".mp3").1

end Ytdl
